import Mathlib

/-!
Shallow embedding of the InventionTracker storage layer
(`server/storage.ts`, its near-duplicate draft in the same file, the
per-row-loop draft, and the drizzle schema `shared/schema.ts`) together
with proofs about the claims of the specification.

The persistent store is modelled as explicit lists of rows, one list per
table, and each storage operation becomes a pure function on that state.
SQL aggregation (`COUNT`, `COUNT(DISTINCT ...)`, `LEFT JOIN` fan-out) is
modelled by building the joined row list explicitly and counting, exactly
as PostgreSQL evaluates the query written in the source.
-/

namespace InventionTracker

/-- Invention status, from the schema's
`varchar("status", { enum: ["pending", "under_review", "approved", "rejected"] })`. -/
inductive Status where
  | pending
  | under_review
  | approved
  | rejected
deriving DecidableEq, Repr

/-- Row of the `users` table (fields not read by any modelled operation are
kept to mirror the schema). -/
structure User where
  id : String
  email : Option String := none
  firstName : Option String := none
  lastName : Option String := none
  role : String := "user"
deriving DecidableEq, Repr

/-- Row of the `inventions` table. Timestamps are modelled as `Nat` ticks;
`fundingAmount` is the nullable `integer("funding_amount")` column. -/
structure Invention where
  id : Nat
  title : String
  description : String
  tags : List String
  status : Status
  fundingAmount : Option Int
  authorId : String
  createdAt : Nat
  updatedAt : Nat
deriving DecidableEq, Repr

/-- Row of the `files` table. -/
structure File where
  id : Nat
  filename : String
  originalName : String
  mimeType : String
  size : Nat
  inventionId : Nat
deriving DecidableEq, Repr

/-- Row of the `comments` table. -/
structure Comment where
  id : Nat
  content : String
  inventionId : Nat
  authorId : String
  createdAt : Nat
deriving DecidableEq, Repr

/-- Row of the `likes` table; `isLike` is true for like, false for dislike. -/
structure Like where
  id : Nat
  inventionId : Nat
  userId : String
  isLike : Bool
  createdAt : Nat
deriving DecidableEq, Repr

/-- The database state: one list per table, plus the serial-id counters of
the tables into which the modelled operations insert rows. -/
structure Store where
  users : List User
  inventions : List Invention
  comments : List Comment
  files : List File
  likes : List Like
  nextCommentId : Nat
  nextLikeId : Nat
deriving Repr

/-- SELECT from users WHERE users.id = uid (used by the joins on
`users.id = inventions.authorId` and by `createComment`). -/
def findUser (s : Store) (uid : String) : Option User :=
  s.users.find? (fun u => u.id = uid)

/-- Predicate for `and(eq(likes.inventionId, i), eq(likes.userId, u))`. -/
def pairPred (i : Nat) (u : String) (x : Like) : Bool :=
  decide (x.inventionId = i) && decide (x.userId = u)

/-- SELECT from likes WHERE inventionId = i AND userId = u. -/
def pairRows (s : Store) (i : Nat) (u : String) : List Like :=
  s.likes.filter (pairPred i u)

/-- `DatabaseStorage.toggleLike` (identical in all three drafts of the
storage layer): look up the existing row for the (invention, user) pair;
if none, insert a row with the given `isLike` (serial id, `createdAt`
defaulted, modelled as 0); if the existing row has the same `isLike`,
delete it by id; otherwise update its `isLike` by id. -/
def toggleLike (s : Store) (inventionId : Nat) (userId : String) (isLike : Bool) : Store :=
  match pairRows s inventionId userId with
  | [] =>
      { s with
        likes := s.likes ++ [⟨s.nextLikeId, inventionId, userId, isLike, 0⟩],
        nextLikeId := s.nextLikeId + 1 }
  | existing :: _ =>
      if existing.isLike = isLike then
        { s with likes := s.likes.filter (fun l => !(decide (l.id = existing.id))) }
      else
        { s with
          likes := s.likes.map
            (fun l => if l.id = existing.id then { l with isLike := isLike } else l) }

/-- `DatabaseStorage.getUserLike`: first row for the pair, if any. -/
def getUserLike (s : Store) (inventionId : Nat) (userId : String) : Option Like :=
  (pairRows s inventionId userId).head?

/-- The three vote states of the toggle state machine. -/
inductive VoteState where
  | noVote
  | liked
  | disliked
deriving DecidableEq, Repr

/-- Vote state of a (invention, user) pair, read off the store through
`getUserLike`. -/
def voteState (s : Store) (inventionId : Nat) (userId : String) : VoteState :=
  match getUserLike s inventionId userId with
  | none => VoteState.noVote
  | some l => if l.isLike then VoteState.liked else VoteState.disliked

/-- Modelled from the spec: the transition table of §4.2 (no-vote/liked/
disliked, same vote cancels, opposite vote flips), used as the reference
the implementation is compared against. -/
def toggleSpecTransition : VoteState → Bool → VoteState
  | VoteState.noVote, true => VoteState.liked
  | VoteState.noVote, false => VoteState.disliked
  | VoteState.liked, true => VoteState.noVote
  | VoteState.liked, false => VoteState.disliked
  | VoteState.disliked, false => VoteState.noVote
  | VoteState.disliked, true => VoteState.liked

/-- A sequence of sequential `toggleLike` calls. -/
def toggleSeq (s : Store) (actions : List (Nat × String × Bool)) : Store :=
  actions.foldl (fun st a => toggleLike st a.1 a.2.1 a.2.2) s

/-! ### Aggregation engine -/

/-- SELECT from likes WHERE likes.inventionId = invId. -/
def likesFor (s : Store) (invId : Nat) : List Like :=
  s.likes.filter (fun l => l.inventionId = invId)

/-- SELECT from comments WHERE comments.inventionId = invId. -/
def commentsFor (s : Store) (invId : Nat) : List Comment :=
  s.comments.filter (fun c => c.inventionId = invId)

/-- SELECT from files WHERE files.inventionId = invId. -/
def filesFor (s : Store) (invId : Nat) : List File :=
  s.files.filter (fun f => f.inventionId = invId)

/-- The `filters?: { status?, tags? }` argument of `getInventions`. -/
structure Filters where
  status : Option Status := none
  tags : Option (List String) := none

/-- No-filter call (`getInventions()` with the argument absent). -/
def noFilters : Filters := ⟨none, none⟩

/-- Status filter step: the loop draft does
`if (filters?.status && inv.status !== filters.status) continue;` and the
SQL draft adds `where(eq(inventions.status, filters.status))`.
Returns true when the row survives the filter. -/
def statusPasses (f : Filters) (inv : Invention) : Bool :=
  match f.status with
  | none => true
  | some st => decide (inv.status = st)

/-- Tag filter step: applied only when a non-empty tag list is given
(`filters?.tags && filters.tags.length > 0`), the row survives when
`filters.tags.some(tag => inv.tags.includes(tag))` — set-overlap, the SQL
draft's `inventions.tags && filters.tags`. -/
def tagsPass (f : Filters) (inv : Invention) : Bool :=
  match f.tags with
  | none => true
  | some ts =>
      if 0 < ts.length then ts.any (fun tag => inv.tags.contains tag) else true

/-- Insert into a list sorted by `createdAt` descending (helper of the
model of `orderBy(desc(createdAt))`). -/
def insertDescBy {α : Type} (key : α → Nat) (p : α) : List α → List α
  | [] => [p]
  | q :: rest =>
      if key p ≤ key q then q :: insertDescBy key p rest else p :: q :: rest

/-- Model of `orderBy(desc(createdAt))`: sort descending by a `Nat` key. -/
def sortDescBy {α : Type} (key : α → Nat) : List α → List α
  | [] => []
  | p :: rest => insertDescBy key p (sortDescBy key rest)

/-- `from(inventions).innerJoin(users, eq(inventions.authorId, users.id))`:
inventions paired with their author row, dropping inventions whose author
is missing. -/
def innerJoinAuthors (s : Store) : List (Invention × User) :=
  s.inventions.filterMap (fun inv => (findUser s inv.authorId).map (fun u => (inv, u)))

/-- The `_count` object of `getInventions`. -/
structure Counts where
  likes : Nat
  dislikes : Nat
  comments : Nat
  files : Nat
deriving DecidableEq, Repr

/-- One element of the per-row-loop `getInventions` result: the invention
spread together with its `author` and `_count`. -/
structure ListItem where
  invention : Invention
  author : User
  counts : Counts
deriving DecidableEq, Repr

/-- Counts as the per-row-loop draft computes them: fetch the like rows
and count `isLike === true` / `=== false` in JS, and take `COUNT(*)` of the
comment and file child rows. -/
def loopCounts (s : Store) (invId : Nat) : Counts :=
  { likes := ((likesFor s invId).filter (fun l => l.isLike = true)).length
    dislikes := ((likesFor s invId).filter (fun l => l.isLike = false)).length
    comments := (commentsFor s invId).length
    files := (filesFor s invId).length }

/-- `DatabaseStorage.getInventions` of the per-row-loop draft: fetch all
inventions inner-joined with their authors ordered by `createdAt`
descending, then for each row skip it unless both filters pass
(the two `continue` statements), and attach the per-invention counts. -/
def getInventionsLoop (s : Store) (f : Filters) : List ListItem :=
  (sortDescBy (fun p => p.1.createdAt) (innerJoinAuthors s)).filterMap
    (fun p =>
      if statusPasses f p.1 && tagsPass f p.1 then
        some ⟨p.1, p.2, loopCounts s p.1.id⟩
      else
        none)

/-- LEFT JOIN contribution of one child table: its matching rows, or a
single NULL row when there are none. -/
def optRows {α : Type} (xs : List α) : List (Option α) :=
  if xs.isEmpty then [none] else xs.map some

/-- The row set of
`from(inventions).leftJoin(likes).leftJoin(comments).leftJoin(files)`
restricted to one invention's group: the product of the three child-row
sets, each replaced by a single NULL row when empty. -/
def joinRows (s : Store) (invId : Nat) : List (Option Like × Option Comment × Option File) :=
  (optRows (likesFor s invId)).flatMap (fun ol =>
    (optRows (commentsFor s invId)).flatMap (fun oc =>
      (optRows (filesFor s invId)).map (fun ofi => (ol, oc, ofi))))

/-- Counts as the grouped-join draft's SQL computes them over the joined
group: `COUNT(CASE WHEN likes.isLike = true THEN 1 END)` counts the joined
rows whose like component is a like (a NULL like component fails the CASE),
likewise for dislikes, while `COUNT(DISTINCT comments.id)` and
`COUNT(DISTINCT files.id)` count the distinct non-null child ids. -/
def joinCounts (s : Store) (invId : Nat) : Counts :=
  let rows := joinRows s invId
  { likes := (rows.filter (fun r =>
      match r.1 with | some l => l.isLike | none => false)).length
    dislikes := (rows.filter (fun r =>
      match r.1 with | some l => !l.isLike | none => false)).length
    comments := ((rows.filterMap (fun r => r.2.1.map (fun c => c.id))).dedup).length
    files := ((rows.filterMap (fun r => r.2.2.map (fun fl => fl.id))).dedup).length }

/-- One row of the grouped-join `getInventions` result; the author comes
from `leftJoin(users, ...)` and is therefore nullable. -/
structure JoinListItem where
  invention : Invention
  author : Option User
  counts : Counts
deriving DecidableEq, Repr

/-- The WHERE configuration the grouped-join draft's builder holds after
its two conditional `query = query.where(...)` statements. Drizzle's
`.where()` assigns the builder's single where slot rather than conjoining
with the previous clause, so when a non-empty tag filter is given its
`.where(...)` call replaces a previously set status condition; with the
tag filter absent or empty the slot keeps the status condition (if any),
and with neither set the query has no WHERE clause. -/
def joinWhere (f : Filters) : Invention → Bool :=
  let afterStatus : Option (Invention → Bool) :=
    match f.status with
    | some st => some (fun inv => decide (inv.status = st))
    | none => none
  let afterTags : Option (Invention → Bool) :=
    match f.tags with
    | some ts =>
        if 0 < ts.length then
          some (fun inv => ts.any (fun tag => inv.tags.contains tag))
        else afterStatus
    | none => afterStatus
  match afterTags with
  | some w => w
  | none => fun _ => true

/-- `DatabaseStorage.getInventions` of the grouped-join draft:
`select(...).from(inventions).leftJoin(users).leftJoin(likes)
.leftJoin(comments).leftJoin(files).groupBy(inventions.id, users.id)`,
with the builder's effective WHERE clause (`joinWhere`, reflecting that
the second `.where(...)` call overwrites the first) and
`orderBy(desc(inventions.createdAt))`. One output row per invention
group. -/
def getInventionsJoin (s : Store) (f : Filters) : List JoinListItem :=
  (sortDescBy (fun p => p.1.createdAt)
      ((s.inventions.map (fun inv => (inv, findUser s inv.authorId))).filter
        (fun p => joinWhere f p.1))).map
    (fun p => ⟨p.1, p.2, joinCounts s p.1.id⟩)

/-! ### Status transition engine -/

/-- The `updateData` write of `updateInventionStatus`: always sets `status`
and `updatedAt`; sets `fundingAmount` exactly when the optional argument
was supplied (`fundingAmount !== undefined`), whatever the status is. -/
def applyStatusUpdate (inv : Invention) (status : Status) (fundingAmount : Option Int)
    (now : Nat) : Invention :=
  { inv with
    status := status
    updatedAt := now
    fundingAmount :=
      match fundingAmount with
      | some a => some a
      | none => inv.fundingAmount }

/-- `DatabaseStorage.updateInventionStatus`: UPDATE inventions SET
updateData WHERE id = id RETURNING; the call returns the first updated row
(`undefined` when the id does not exist). -/
def updateInventionStatus (s : Store) (id : Nat) (status : Status)
    (fundingAmount : Option Int) (now : Nat) : Store × Option Invention :=
  let newInventions := s.inventions.map
    (fun inv => if inv.id = id then applyStatusUpdate inv status fundingAmount now else inv)
  ({ s with inventions := newInventions },
    (newInventions.filter (fun inv => inv.id = id)).head?)

/-! ### Comment creation -/

/-- `DatabaseStorage.createComment`: INSERT into comments RETURNING,
then fetch the author row. No draft (and no route: the zod
`insertCommentSchema` maps the `content` column to a plain `z.string()`)
checks that `content` is non-empty, so the insert happens for any string. -/
def createComment (s : Store) (content : String) (inventionId : Nat)
    (authorId : String) (now : Nat) : Store × Comment × Option User :=
  let newComment : Comment := ⟨s.nextCommentId, content, inventionId, authorId, now⟩
  ({ s with
      comments := s.comments ++ [newComment],
      nextCommentId := s.nextCommentId + 1 },
    newComment,
    findUser s authorId)

/-! ### Statistics -/

/-- The result row of `getStats`. -/
structure Stats where
  total : Nat
  pending : Nat
  approved : Nat
  rejected : Nat
deriving DecidableEq, Repr

/-- Number of inventions with a given status
(`COUNT(CASE WHEN inventions.status = '...' THEN 1 END)`). -/
def countStatus (s : Store) (st : Status) : Nat :=
  (s.inventions.filter (fun inv => inv.status = st)).length

/-- `DatabaseStorage.getStats`: one aggregate over the inventions table
with `COUNT(*)` and the three status-cased counts — no bucket is computed
for `under_review`. -/
def getStats (s : Store) : Stats :=
  { total := s.inventions.length
    pending := countStatus s Status.pending
    approved := countStatus s Status.approved
    rejected := countStatus s Status.rejected }

/-! ### List helpers -/

theorem mem_insertDescBy {α : Type} (key : α → Nat) (p a : α) :
    ∀ l : List α, a ∈ insertDescBy key p l ↔ a = p ∨ a ∈ l := by
  intro l
  induction l with
  | nil => simp [insertDescBy]
  | cons q rest ih =>
      simp only [insertDescBy]
      split
      · simp only [List.mem_cons, ih]
        tauto
      · simp only [List.mem_cons]

theorem mem_sortDescBy {α : Type} (key : α → Nat) (a : α) :
    ∀ l : List α, a ∈ sortDescBy key l ↔ a ∈ l := by
  intro l
  induction l with
  | nil => simp [sortDescBy]
  | cons p rest ih =>
      simp only [sortDescBy, mem_insertDescBy, ih, List.mem_cons]

theorem filter_filter_of_imp {α : Type} (p q : α → Bool) :
    ∀ l : List α, (∀ x ∈ l, p x = true → q x = true) →
      (l.filter q).filter p = l.filter p := by
  intro l
  induction l with
  | nil => intro _; rfl
  | cons x rest ih =>
      intro h
      have hrest := ih (fun y hy => h y (List.mem_cons_of_mem x hy))
      by_cases hq : q x = true
      · by_cases hp : p x = true
        · simp [List.filter_cons, hq, hp, hrest]
        · simp [List.filter_cons, hq, hp, hrest]
      · have hp : ¬ p x = true := fun hpx => hq (h x (List.mem_cons_self x rest) hpx)
        simp [List.filter_cons, hq, hp, hrest]

theorem filter_map_comm {α : Type} (p : α → Bool) (f : α → α)
    (hpf : ∀ x, p (f x) = p x) :
    ∀ l : List α, (l.map f).filter p = (l.filter p).map f := by
  intro l
  induction l with
  | nil => rfl
  | cons x rest ih =>
      by_cases hp : p x = true
      · simp [List.filter_cons, hpf, hp, ih]
      · simp [List.filter_cons, hpf, hp, ih]

theorem filter_swap {α : Type} (p q : α → Bool) :
    ∀ l : List α, (l.filter q).filter p = (l.filter p).filter q := by
  intro l
  induction l with
  | nil => rfl
  | cons x rest ih =>
      by_cases hq : q x = true
      · by_cases hp : p x = true
        · simp [List.filter_cons, hq, hp, ih]
        · simp [List.filter_cons, hq, hp, ih]
      · by_cases hp : p x = true
        · simp [List.filter_cons, hq, hp, ih]
        · simp [List.filter_cons, hq, hp, ih]

/-! ### Branch lemmas for toggleLike -/

theorem toggleLike_of_nil (s : Store) (i : Nat) (u : String) (b : Bool)
    (h : pairRows s i u = []) :
    toggleLike s i u b =
      { s with
        likes := s.likes ++ [⟨s.nextLikeId, i, u, b, 0⟩],
        nextLikeId := s.nextLikeId + 1 } := by
  unfold toggleLike
  rw [h]

theorem toggleLike_of_cons_same (s : Store) (i : Nat) (u : String) (b : Bool)
    (r : Like) (rest : List Like) (h : pairRows s i u = r :: rest)
    (hb : r.isLike = b) :
    toggleLike s i u b =
      { s with likes := s.likes.filter (fun l => !(decide (l.id = r.id))) } := by
  unfold toggleLike
  rw [h]
  simp [hb]

theorem toggleLike_of_cons_ne (s : Store) (i : Nat) (u : String) (b : Bool)
    (r : Like) (rest : List Like) (h : pairRows s i u = r :: rest)
    (hb : ¬ r.isLike = b) :
    toggleLike s i u b =
      { s with
        likes := s.likes.map
          (fun l => if l.id = r.id then { l with isLike := b } else l) } := by
  unfold toggleLike
  rw [h]
  simp [hb]

/-- The row inserted for the pair matches the pair predicate. -/
theorem pairPred_new (i : Nat) (u : String) (nid : Nat) (b : Bool) :
    pairPred i u ⟨nid, i, u, b, 0⟩ = true := by
  simp [pairPred]

/-- Updating a row's isLike does not change which pair it belongs to. -/
theorem pairPred_update (i : Nat) (u : String) (k : Nat) (b : Bool) (x : Like) :
    pairPred i u (if x.id = k then { x with isLike := b } else x) = pairPred i u x := by
  by_cases hid : x.id = k
  · simp [pairPred, hid]
  · simp [pairPred, hid]

/-- C2 helper: the state of a pair after an insert branch. -/
theorem pairRows_after_insert (s : Store) (i : Nat) (u : String) (b : Bool)
    (h : pairRows s i u = []) :
    pairRows
      { s with
        likes := s.likes ++ [⟨s.nextLikeId, i, u, b, 0⟩],
        nextLikeId := s.nextLikeId + 1 } i u
      = [⟨s.nextLikeId, i, u, b, 0⟩] := by
  have h' : s.likes.filter (pairPred i u) = [] := h
  simp [pairRows, List.filter_append, List.filter_cons, pairPred_new, h']

/-- C2 helper: the state of a pair after a delete branch, when the pair
had exactly the deleted row. -/
theorem pairRows_after_delete (s : Store) (i : Nat) (u : String) (r : Like)
    (h : pairRows s i u = [r]) :
    pairRows { s with likes := s.likes.filter (fun l => !(decide (l.id = r.id))) } i u
      = [] := by
  have h' : s.likes.filter (pairPred i u) = [r] := h
  have hswap := filter_swap (pairPred i u) (fun l => !(decide (l.id = r.id))) s.likes
  simp only [pairRows]
  show (s.likes.filter (fun l => !(decide (l.id = r.id)))).filter (pairPred i u) = []
  rw [hswap, h']
  simp [List.filter_cons]

/-- C2 helper: the state of a pair after an update branch. -/
theorem pairRows_after_update (s : Store) (i : Nat) (u : String) (b : Bool)
    (r : Like) (rest : List Like) (h : pairRows s i u = r :: rest) :
    pairRows
      { s with
        likes := s.likes.map (fun l => if l.id = r.id then { l with isLike := b } else l) } i u
      = { r with isLike := b }
        :: rest.map (fun l => if l.id = r.id then { l with isLike := b } else l) := by
  have h' : s.likes.filter (pairPred i u) = r :: rest := h
  have hcomm := filter_map_comm (pairPred i u)
    (fun l => if l.id = r.id then { l with isLike := b } else l)
    (fun x => pairPred_update i u r.id b x) s.likes
  simp only [pairRows]
  show (s.likes.map (fun l => if l.id = r.id then { l with isLike := b } else l)).filter
      (pairPred i u) = _
  rw [hcomm, h']
  simp

/-- C2: `toggleLike` realises the spec's 3-state symmetric toggle on the
vote state of the targeted (invention, user) pair: from no-vote it inserts
the given vote, a repeated vote cancels, an opposite vote flips. -/
theorem toggleLike_transition (s : Store) (i : Nat) (u : String) (b : Bool)
    (h : (pairRows s i u).length ≤ 1) :
    voteState (toggleLike s i u b) i u = toggleSpecTransition (voteState s i u) b := by
  cases hpr : pairRows s i u with
  | nil =>
      rw [toggleLike_of_nil s i u b hpr]
      have hafter := pairRows_after_insert s i u b hpr
      have hbefore : voteState s i u = VoteState.noVote := by
        simp [voteState, getUserLike, hpr]
      rw [hbefore]
      simp only [voteState, getUserLike, hafter]
      cases b <;> rfl
  | cons r rest =>
      have hrest : rest = [] := by
        rw [hpr] at h
        simp only [List.length_cons] at h
        exact List.eq_nil_of_length_eq_zero (by omega)
      subst hrest
      have hbefore : voteState s i u = if r.isLike then VoteState.liked else VoteState.disliked := by
        simp [voteState, getUserLike, hpr]
      by_cases hb : r.isLike = b
      · rw [toggleLike_of_cons_same s i u b r [] hpr hb]
        have hafter := pairRows_after_delete s i u r hpr
        rw [hbefore]
        simp only [voteState, getUserLike, hafter, List.head?]
        rw [hb]
        cases b <;> rfl
      · rw [toggleLike_of_cons_ne s i u b r [] hpr hb]
        have hafter := pairRows_after_update s i u b r [] hpr
        rw [hbefore]
        simp only [voteState, getUserLike, hafter, List.head?]
        cases b with
        | true =>
            have hr : r.isLike = false := by
              cases hri : r.isLike
              · rfl
              · exact absurd hri hb
            rw [hr]
            rfl
        | false =>
            have hr : r.isLike = true := by
              cases hri : r.isLike
              · exact absurd hri hb
              · rfl
            rw [hr]
            rfl

/-- Small store for the toggle witnesses: one existing like for pair
(1, "u1"). -/
def likeDemoStore : Store :=
  { users := [], inventions := [], comments := [], files := [],
    likes := [⟨1, 1, "u1", true, 0⟩], nextCommentId := 1, nextLikeId := 2 }

/-- Witness for C2: toggling `true` on an already-liked pair cancels the
vote. -/
theorem toggleLike_transition_witness :
    (pairRows likeDemoStore 1 "u1").length ≤ 1 ∧
      voteState (toggleLike likeDemoStore 1 "u1" true) 1 "u1"
        = toggleSpecTransition (voteState likeDemoStore 1 "u1") true :=
  ⟨by decide, toggleLike_transition likeDemoStore 1 "u1" true (by decide)⟩

/-- C3 step lemma: a single `toggleLike` call preserves the
at-most-one-Like-row-per-pair invariant. -/
theorem toggleLike_preserves_atMostOne (s : Store) (i : Nat) (u : String) (b : Bool)
    (h : ∀ i' u', (pairRows s i' u').length ≤ 1) :
    ∀ i' u', (pairRows (toggleLike s i u b) i' u').length ≤ 1 := by
  intro i' u'
  cases hpr : pairRows s i u with
  | nil =>
      rw [toggleLike_of_nil s i u b hpr]
      show ((s.likes ++ [(⟨s.nextLikeId, i, u, b, 0⟩ : Like)]).filter (pairPred i' u')).length ≤ 1
      rw [List.filter_append]
      by_cases hnew : pairPred i' u' (⟨s.nextLikeId, i, u, b, 0⟩ : Like) = true
      · have hiu : i = i' ∧ u = u' := by simpa [pairPred] using hnew
        have hempty : s.likes.filter (pairPred i' u') = [] := by
          rw [← hiu.1, ← hiu.2]
          exact hpr
        simp [hempty, List.filter_cons, hnew]
      · have h' := h i' u'
        simp only [List.filter_cons, hnew, ite_false, List.filter_nil, List.append_nil]
        simpa [pairRows] using h'
  | cons r rest =>
      by_cases hb : r.isLike = b
      · rw [toggleLike_of_cons_same s i u b r rest hpr hb]
        show ((s.likes.filter (fun l => !(decide (l.id = r.id)))).filter (pairPred i' u')).length ≤ 1
        rw [filter_swap]
        calc ((s.likes.filter (pairPred i' u')).filter (fun l => !(decide (l.id = r.id)))).length
            ≤ (s.likes.filter (pairPred i' u')).length := List.length_filter_le _ _
          _ ≤ 1 := h i' u'
      · rw [toggleLike_of_cons_ne s i u b r rest hpr hb]
        show ((s.likes.map (fun l => if l.id = r.id then { l with isLike := b } else l)).filter
          (pairPred i' u')).length ≤ 1
        rw [filter_map_comm (pairPred i' u') _ (fun x => pairPred_update i' u' r.id b x)]
        rw [List.length_map]
        exact h i' u'

/-- C3: no sequence of sequential `toggleLike` calls breaks the
at-most-one-Like-row-per (inventionId, userId) invariant: if every pair
has at most one row before, every pair has at most one row after. -/
theorem toggleSeq_atMostOne (s : Store) (actions : List (Nat × String × Bool))
    (h : ∀ i u, (pairRows s i u).length ≤ 1) :
    ∀ i u, (pairRows (toggleSeq s actions) i u).length ≤ 1 := by
  induction actions generalizing s with
  | nil => exact h
  | cons a rest ih =>
      have hstep := toggleLike_preserves_atMostOne s a.1 a.2.1 a.2.2 h
      have := ih (toggleLike s a.1 a.2.1 a.2.2) hstep
      simpa [toggleSeq, List.foldl_cons] using this

/-- Any pair has at most one row in the one-row demo store. -/
theorem likeDemoStore_atMostOne (i : Nat) (u : String) :
    (pairRows likeDemoStore i u).length ≤ 1 := by
  have := List.length_filter_le (pairPred i u) likeDemoStore.likes
  simpa [likeDemoStore, pairRows] using this

/-- Witness for C3: two repeated likes on the demo store leave every pair
with at most one row (checked at pair (1, "u1")). -/
theorem toggleSeq_atMostOne_witness :
    (∀ i u, (pairRows likeDemoStore i u).length ≤ 1) ∧
      (pairRows (toggleSeq likeDemoStore [(1, "u1", true), (2, "u2", false)]) 1 "u1").length ≤ 1 :=
  ⟨likeDemoStore_atMostOne,
    toggleSeq_atMostOne likeDemoStore [(1, "u1", true), (2, "u2", false)]
      likeDemoStore_atMostOne 1 "u1"⟩

/-- C9 helper: a row of the targeted pair that is first in the pair's
filtered rows is a member of the likes list and matches the pair. -/
theorem pairRows_head_mem (s : Store) (i : Nat) (u : String) (r : Like)
    (rest : List Like) (h : pairRows s i u = r :: rest) :
    r ∈ s.likes ∧ pairPred i u r = true := by
  have hr : r ∈ s.likes.filter (pairPred i u) := by
    have h' : s.likes.filter (pairPred i u) = r :: rest := h
    rw [h']
    exact List.mem_cons_self r rest
  exact ⟨(List.mem_filter.mp hr).1, (List.mem_filter.mp hr).2⟩

/-- C9: a `toggleLike` call has no effect outside the single Like row of
the targeted (invention, user) pair: the users, inventions, comments and
files tables are untouched, and the Like rows of every other pair are
exactly the ones that were there before. The hypothesis is the `serial`
primary key of the likes table: row ids are pairwise distinct. -/
theorem toggleLike_frame (s : Store) (i : Nat) (u : String) (b : Bool)
    (hids : (s.likes.map (fun l => l.id)).Nodup) :
    (toggleLike s i u b).users = s.users ∧
    (toggleLike s i u b).inventions = s.inventions ∧
    (toggleLike s i u b).comments = s.comments ∧
    (toggleLike s i u b).files = s.files ∧
    (toggleLike s i u b).likes.filter (fun l => !(pairPred i u l))
      = s.likes.filter (fun l => !(pairPred i u l)) := by
  cases hpr : pairRows s i u with
  | nil =>
      rw [toggleLike_of_nil s i u b hpr]
      refine ⟨rfl, rfl, rfl, rfl, ?_⟩
      show (s.likes ++ [(⟨s.nextLikeId, i, u, b, 0⟩ : Like)]).filter
          (fun l => !(pairPred i u l)) = _
      rw [List.filter_append]
      simp [List.filter_cons, pairPred_new]
  | cons r rest =>
      obtain ⟨hrmem, hrpair⟩ := pairRows_head_mem s i u r rest hpr
      have hkey : ∀ x ∈ s.likes, (!(pairPred i u x)) = true → x.id = r.id → False := by
        intro x hx hnp hid
        have hxr : x = r :=
          List.inj_on_of_nodup_map hids hx hrmem hid
        rw [hxr, hrpair] at hnp
        simp at hnp
      by_cases hb : r.isLike = b
      · rw [toggleLike_of_cons_same s i u b r rest hpr hb]
        refine ⟨rfl, rfl, rfl, rfl, ?_⟩
        show (s.likes.filter (fun l => !(decide (l.id = r.id)))).filter
            (fun l => !(pairPred i u l)) = _
        refine filter_filter_of_imp _ _ s.likes ?_
        intro x hx hnp
        have hne : ¬ x.id = r.id := fun hid => hkey x hx hnp hid
        simp [hne]
      · rw [toggleLike_of_cons_ne s i u b r rest hpr hb]
        refine ⟨rfl, rfl, rfl, rfl, ?_⟩
        show (s.likes.map (fun l => if l.id = r.id then { l with isLike := b } else l)).filter
            (fun l => !(pairPred i u l)) = _
        rw [filter_map_comm _ _ (fun x => by rw [pairPred_update])]
        have : ∀ x ∈ s.likes.filter (fun l => !(pairPred i u l)),
            (if x.id = r.id then { x with isLike := b } else x) = x := by
          intro x hx
          have hx' := List.mem_filter.mp hx
          have : ¬ x.id = r.id := fun hid => hkey x hx'.1 hx'.2 hid
          simp [this]
        rw [List.map_congr_left this]
        exact List.map_id _

/-- Witness for C9: on the demo store (whose single like row has a unique
id), toggling pair (2, "u2") leaves pair (1, "u1")'s row and all the other
tables unchanged. -/
theorem toggleLike_frame_witness :
    (likeDemoStore.likes.map (fun l => l.id)).Nodup ∧
      (toggleLike likeDemoStore 2 "u2" true).likes.filter
          (fun l => !(pairPred 2 "u2" l))
        = likeDemoStore.likes.filter (fun l => !(pairPred 2 "u2" l)) :=
  ⟨by decide, (toggleLike_frame likeDemoStore 2 "u2" true (by decide)).2.2.2.2⟩

/-! ### Statistics claims -/

/-- Partition of a list of inventions by the four statuses. -/
theorem status_count_partition :
    ∀ l : List Invention,
      (l.filter (fun inv => decide (inv.status = Status.pending))).length
      + (l.filter (fun inv => decide (inv.status = Status.approved))).length
      + (l.filter (fun inv => decide (inv.status = Status.rejected))).length
      + (l.filter (fun inv => decide (inv.status = Status.under_review))).length
      = l.length := by
  intro l
  induction l with
  | nil => rfl
  | cons x rest ih =>
      cases hx : x.status <;> simp [List.filter_cons, hx] <;> omega

/-- C10: `getStats` has no bucket for "under_review": `total` counts all
inventions, the three named buckets sum to `total` minus the number of
under_review inventions, and whenever some invention is under review the
buckets sum to strictly less than `total`. -/
theorem getStats_no_under_review_bucket (s : Store) :
    (getStats s).total = s.inventions.length ∧
    (getStats s).pending + (getStats s).approved + (getStats s).rejected
      + countStatus s Status.under_review = (getStats s).total ∧
    (getStats s).pending + (getStats s).approved + (getStats s).rejected
      = (getStats s).total - countStatus s Status.under_review ∧
    (0 < countStatus s Status.under_review →
      (getStats s).pending + (getStats s).approved + (getStats s).rejected
        < (getStats s).total) := by
  have hpart := status_count_partition s.inventions
  refine ⟨rfl, ?_, ?_, ?_⟩ <;> simp only [getStats, countStatus] <;> omega

/-- Test-fixture invention constructor. -/
def mkInvention (id : Nat) (tags : List String) (st : Status) (createdAt : Nat)
    (authorId : String) : Invention :=
  { id := id, title := "t", description := "d", tags := tags, status := st,
    fundingAmount := none, authorId := authorId, createdAt := createdAt,
    updatedAt := createdAt }

/-- Store with one under_review invention, for the C10 witness. -/
def statsDemoStore : Store :=
  { users := [{ id := "u1" }],
    inventions :=
      [mkInvention 1 [] Status.pending 1 "u1",
        mkInvention 2 [] Status.under_review 2 "u1"],
    comments := [], files := [], likes := [], nextCommentId := 1, nextLikeId := 1 }

/-- Witness for C10: with one under_review invention the three buckets sum
to strictly less than total. -/
theorem getStats_no_under_review_bucket_witness :
    0 < countStatus statsDemoStore Status.under_review ∧
      (getStats statsDemoStore).pending + (getStats statsDemoStore).approved
        + (getStats statsDemoStore).rejected < (getStats statsDemoStore).total :=
  ⟨by decide, (getStats_no_under_review_bucket statsDemoStore).2.2.2 (by decide)⟩

/-! ### Status transition claims -/

/-- Store with one unfunded pending invention, for C4. -/
def fundingDemoStore : Store :=
  { users := [{ id := "u1" }],
    inventions := [mkInvention 1 [] Status.pending 1 "u1"],
    comments := [], files := [], likes := [], nextCommentId := 1, nextLikeId := 1 }

/-- C4 counterexample: a status transition to "rejected" that supplies a
funding amount does store it — the returned invention of
`updateInventionStatus(1, "rejected", 5000)` carries fundingAmount 5000
even though it had none before. -/
theorem updateInventionStatus_reject_stores_funding :
    fundingDemoStore.inventions.map (fun inv => inv.fundingAmount) = [none] ∧
      ((updateInventionStatus fundingDemoStore 1 Status.rejected (some 5000) 7).2).map
          (fun inv => inv.fundingAmount) = some (some 5000) := by
  decide

/-- C4 helper: mapping a row transformer that preserves ids and writes a
fixed funding amount into every matching row, then selecting the matching
rows, yields that funding amount on each of them. -/
theorem funding_of_matching_rows (idv : Nat) (fa : Option Int)
    (g : Invention → Invention)
    (hid : ∀ x, (g x).id = x.id)
    (hfa : ∀ x, x.id = idv → (g x).fundingAmount = fa) :
    ∀ l : List Invention,
      ((l.map g).filter (fun inv => decide (inv.id = idv))).map
          (fun inv => inv.fundingAmount)
        = (l.filter (fun inv => decide (inv.id = idv))).map (fun _ => fa) := by
  intro l
  induction l with
  | nil => rfl
  | cons x rest ih =>
      by_cases hx : x.id = idv
      · have h1 : decide ((g x).id = idv) = true := by rw [hid x]; exact decide_eq_true hx
        have h2 : decide (x.id = idv) = true := decide_eq_true hx
        simp only [List.map_cons, List.filter_cons, h1, h2, if_true]
        rw [hfa x hx, ih]
      · have h1 : decide ((g x).id = idv) = false := by
          rw [hid x]; exact decide_eq_false hx
        have h2 : decide (x.id = idv) = false := decide_eq_false hx
        simp only [List.map_cons, List.filter_cons, h1, h2, Bool.false_eq_true, if_false]
        exact ih

/-- C4 amended: `updateInventionStatus` stores the funding amount exactly
when one is supplied, whatever the target status: with the argument
omitted no invention's stored funding amount changes, and with an amount
supplied every matching invention row carries it — including on a
transition to "rejected". -/
theorem updateInventionStatus_funding (s : Store) (id : Nat) (st : Status) (now : Nat) :
    ((updateInventionStatus s id st none now).1.inventions.map (fun inv => inv.fundingAmount)
        = s.inventions.map (fun inv => inv.fundingAmount)) ∧
    (∀ a : Int,
      ((updateInventionStatus s id st (some a) now).1.inventions.filter
          (fun inv => inv.id = id)).map (fun inv => inv.fundingAmount)
        = (s.inventions.filter (fun inv => inv.id = id)).map (fun _ => some a)) := by
  constructor
  · simp only [updateInventionStatus, List.map_map]
    refine List.map_congr_left ?_
    intro x _
    by_cases hx : x.id = id
    · simp [applyStatusUpdate, hx]
    · simp [hx]
  · intro a
    exact funding_of_matching_rows id (some a)
      (fun inv => if inv.id = id then applyStatusUpdate inv st (some a) now else inv)
      (fun x => by by_cases hx : x.id = id <;> simp [applyStatusUpdate, hx])
      (fun x hx => by simp [applyStatusUpdate, hx])
      s.inventions

/-! ### Comment creation claim -/

/-- Store with one invention and no comments, for C8. -/
def commentDemoStore : Store :=
  { users := [{ id := "u1" }],
    inventions := [mkInvention 1 [] Status.pending 1 "u1"],
    comments := [], files := [], likes := [], nextCommentId := 1, nextLikeId := 1 }

/-- C8: evaluating `createComment` at the failing input: a request with
empty content succeeds — the comment row with content "" is inserted into
the store and returned together with its author, since neither the
storage layer nor the route's zod schema rejects an empty string. -/
theorem createComment_empty_content_inserted :
    (createComment commentDemoStore "" 1 "u1" 5).1.comments
        = commentDemoStore.comments ++ [⟨1, "", 1, "u1", 5⟩] ∧
      (createComment commentDemoStore "" 1 "u1" 5).2.1.content = "" := by
  decide

/-! ### Counts claim -/

/-- Store realising the spec's counts fixture: invention 1 with 3 like
rows (2 with isLike=true, 1 with false), 4 comment rows and 2 file rows,
for C1. -/
def countsDemoStore : Store :=
  { users := [{ id := "u1" }],
    inventions := [mkInvention 1 ["AI/ML", "IoT"] Status.pending 10 "u1"],
    comments :=
      [⟨1, "c1", 1, "u1", 1⟩, ⟨2, "c2", 1, "u1", 2⟩,
        ⟨3, "c3", 1, "u1", 3⟩, ⟨4, "c4", 1, "u1", 4⟩],
    files := [⟨1, "f1", "o1", "m", 5, 1⟩, ⟨2, "f2", "o2", "m", 5, 1⟩],
    likes := [⟨1, 1, "a", true, 1⟩, ⟨2, 1, "b", true, 2⟩, ⟨3, 1, "c", false, 3⟩],
    nextCommentId := 5, nextLikeId := 4 }

/-- C1: at the spec's fixture the grouped-join draft's like/dislike counts
are inflated by the LEFT JOIN fan-out — every like row is repeated once
per comment-and-file combination, so it reports likes=16 and dislikes=8
where the true tallies are 2 and 1 (comments and files, counted with
COUNT(DISTINCT id), stay correct) — while the per-row-loop draft reports
the true tallies {likes 2, dislikes 1, comments 4, files 2}. -/
theorem getInventions_counts_at_fixture :
    ((getInventionsJoin countsDemoStore noFilters).map (fun r => r.counts)
        = [⟨16, 8, 4, 2⟩]) ∧
      ((getInventionsLoop countsDemoStore noFilters).map (fun r => r.counts)
        = [⟨2, 1, 4, 2⟩]) := by
  decide

/-! ### Membership in the loop-draft listing -/

/-- Membership in the inner-join of inventions with their authors. -/
theorem mem_innerJoinAuthors (s : Store) (inv : Invention) (u : User) :
    (inv, u) ∈ innerJoinAuthors s ↔
      inv ∈ s.inventions ∧ findUser s inv.authorId = some u := by
  simp only [innerJoinAuthors, List.mem_filterMap]
  constructor
  · rintro ⟨a, ha, hmap⟩
    rcases Option.map_eq_some'.mp hmap with ⟨u', hu', heq⟩
    have h1 : a = inv := congrArg Prod.fst heq
    have h2 : u' = u := congrArg Prod.snd heq
    subst h1
    subst h2
    exact ⟨ha, hu'⟩
  · rintro ⟨hmem, hfind⟩
    exact ⟨inv, hmem, by rw [hfind]; rfl⟩

/-- Membership characterisation of the per-row-loop `getInventions`
result: an item for invention inv appears iff inv is stored, its author
row is present, and both filters pass. -/
theorem mem_getInventionsLoop (s : Store) (f : Filters) (inv : Invention) :
    (∃ item ∈ getInventionsLoop s f, item.invention = inv) ↔
      ((∃ u, findUser s inv.authorId = some u) ∧ inv ∈ s.inventions
        ∧ statusPasses f inv = true ∧ tagsPass f inv = true) := by
  simp only [getInventionsLoop, List.mem_filterMap, mem_sortDescBy]
  constructor
  · rintro ⟨item, ⟨⟨inv', u'⟩, hp, hsome⟩, hinv⟩
    by_cases hpass : (statusPasses f inv' && tagsPass f inv') = true
    · rw [if_pos hpass] at hsome
      have hitem : (⟨inv', u', loopCounts s inv'.id⟩ : ListItem) = item :=
        Option.some.inj hsome
      have hp1 : inv' = inv := by rw [← hitem] at hinv; exact hinv
      subst hp1
      have hmem := (mem_innerJoinAuthors s inv' u').mp hp
      have hand := Bool.and_eq_true _ _ |>.mp hpass
      exact ⟨⟨u', hmem.2⟩, hmem.1, hand.1, hand.2⟩
    · rw [if_neg hpass] at hsome
      cases hsome
  · rintro ⟨⟨u, hu⟩, hmem, hst, htg⟩
    refine ⟨⟨inv, u, loopCounts s inv.id⟩,
      ⟨(inv, u), (mem_innerJoinAuthors s inv u).mpr ⟨hmem, hu⟩, ?_⟩, rfl⟩
    rw [if_pos (by rw [hst, htg]; rfl)]

/-- A non-empty explicit tag filter reduces to the overlap check. -/
theorem tagsPass_some (T : List String) (inv : Invention) (hT : T ≠ []) :
    tagsPass ⟨none, some T⟩ inv = T.any (fun tag => inv.tags.contains tag) := by
  show (if 0 < T.length then T.any (fun tag => inv.tags.contains tag) else true) = _
  rw [if_pos (List.length_pos.mpr hT)]

/-! ### Tag filter claim -/

/-- C5: the tag filter has OR/set-overlap semantics: for a stored
invention with a present author and any non-empty tag filter T, the
invention is listed iff some tag of T occurs among its tags, and an empty
or absent tag filter imposes no restriction. -/
theorem tag_filter_overlap (s : Store) (inv : Invention) (u : User)
    (hmem : inv ∈ s.inventions) (hu : findUser s inv.authorId = some u) :
    (∀ T : List String, T ≠ [] →
      ((∃ item ∈ getInventionsLoop s ⟨none, some T⟩, item.invention = inv)
        ↔ T.any (fun tag => inv.tags.contains tag) = true)) ∧
    (∃ item ∈ getInventionsLoop s ⟨none, some []⟩, item.invention = inv) ∧
    (∃ item ∈ getInventionsLoop s ⟨none, none⟩, item.invention = inv) := by
  refine ⟨?_, ?_, ?_⟩
  · intro T hT
    rw [mem_getInventionsLoop]
    constructor
    · rintro ⟨_, _, _, htg⟩
      rw [tagsPass_some T inv hT] at htg
      exact htg
    · intro hov
      refine ⟨⟨u, hu⟩, hmem, rfl, ?_⟩
      rw [tagsPass_some T inv hT]
      exact hov
  · rw [mem_getInventionsLoop]
    exact ⟨⟨u, hu⟩, hmem, rfl, rfl⟩
  · rw [mem_getInventionsLoop]
    exact ⟨⟨u, hu⟩, hmem, rfl, rfl⟩

/-- The C1/C5 fixture invention. -/
def fixtureInvention : Invention := mkInvention 1 ["AI/ML", "IoT"] Status.pending 10 "u1"

/-- The C1/C5 fixture author row. -/
def fixtureUser : User := { id := "u1" }

/-- Witness for C5: the fixture invention (tags {"AI/ML","IoT"}) is listed
under the filter ["IoT","Energy"] (overlap) and not listed under
["Biotech"] (no overlap). -/
theorem tag_filter_overlap_witness :
    fixtureInvention ∈ countsDemoStore.inventions ∧
      (∃ item ∈ getInventionsLoop countsDemoStore ⟨none, some ["IoT", "Energy"]⟩,
        item.invention = fixtureInvention) ∧
      ¬ (∃ item ∈ getInventionsLoop countsDemoStore ⟨none, some ["Biotech"]⟩,
        item.invention = fixtureInvention) :=
  ⟨by decide,
    ((tag_filter_overlap countsDemoStore fixtureInvention fixtureUser (by decide)
          (by decide)).1 ["IoT", "Energy"] (by decide)).mpr (by decide),
    fun hmem =>
      absurd (((tag_filter_overlap countsDemoStore fixtureInvention fixtureUser (by decide)
          (by decide)).1 ["Biotech"] (by decide)).mp hmem) (by decide)⟩

/-! ### Status filter claim -/

/-- Store with an approved and an under_review invention, both tagged
"IoT", for C6. -/
def combinedFilterStore : Store :=
  { users := [{ id := "u1" }],
    inventions :=
      [mkInvention 1 ["IoT"] Status.approved 5 "u1",
        mkInvention 2 ["IoT"] Status.under_review 6 "u1"],
    comments := [], files := [], likes := [], nextCommentId := 1, nextLikeId := 1 }

/-- C6 counterexample: on the grouped-join draft a combined call with
status="approved" and tags=["IoT"] returns the under_review invention as
well — the tag filter's `.where(...)` call has replaced the status
condition in the builder, so status exactness fails when both filters are
given. -/
theorem getInventionsJoin_combined_drops_status :
    (getInventionsJoin combinedFilterStore
        ⟨some Status.approved, some ["IoT"]⟩).map (fun r => r.invention.status)
      = [Status.under_review, Status.approved] := by
  decide

/-- C6 amended: the status filter is exact whenever it is the builder's
effective WHERE clause: in the per-row-loop draft, alone or combined with
a tag filter, every listed invention carries exactly the filtered status,
and with no filters every stored invention with a present author is
listed whatever its status; in the grouped-join draft exactness holds
when the status filter is given alone, but a combined call is identical
to a tags-only call because the tag filter's `.where` overwrites the
status condition. -/
theorem status_filter_exact_amended :
    (∀ (s : Store) (f : Filters) (st : Status), f.status = some st →
      ∀ item ∈ getInventionsLoop s f, item.invention.status = st) ∧
    (∀ (s : Store) (inv : Invention) (u : User), inv ∈ s.inventions →
      findUser s inv.authorId = some u →
      ∃ item ∈ getInventionsLoop s noFilters, item.invention = inv) ∧
    (∀ (s : Store) (st : Status),
      ∀ item ∈ getInventionsJoin s ⟨some st, none⟩, item.invention.status = st) ∧
    (∀ (s : Store) (st : Status) (ts : List String), ts ≠ [] →
      getInventionsJoin s ⟨some st, some ts⟩ = getInventionsJoin s ⟨none, some ts⟩) := by
  refine ⟨?_, ?_, ?_, ?_⟩
  · intro s f st hst item hitem
    have hx : ∃ it ∈ getInventionsLoop s f, it.invention = item.invention :=
      ⟨item, hitem, rfl⟩
    rw [mem_getInventionsLoop] at hx
    rcases hx with ⟨_, _, hpass, _⟩
    rw [statusPasses, hst] at hpass
    exact of_decide_eq_true hpass
  · intro s inv u hmem hu
    rw [mem_getInventionsLoop]
    exact ⟨⟨u, hu⟩, hmem, rfl, rfl⟩
  · intro s st item hitem
    simp only [getInventionsJoin, List.mem_map, mem_sortDescBy, List.mem_filter] at hitem
    rcases hitem with ⟨⟨inv', u'⟩, ⟨hmem0, hw⟩, hbuild⟩
    have hst : decide (inv'.status = st) = true := by
      simpa [joinWhere] using hw
    rw [← hbuild]
    exact of_decide_eq_true hst
  · intro s st ts hts
    have hw : joinWhere ⟨some st, some ts⟩ = joinWhere (⟨none, some ts⟩ : Filters) := by
      funext inv
      simp [joinWhere, List.length_pos.mpr hts]
    simp only [getInventionsJoin, hw]

/-- The item of `combinedFilterStore` that survives the combined filter on
the loop draft. -/
def combinedDemoItem : ListItem :=
  ⟨mkInvention 1 ["IoT"] Status.approved 5 "u1", { id := "u1" },
    loopCounts combinedFilterStore 1⟩

/-- Witness for C6's amended claim: on the loop draft a combined call with
status="approved" and tags=["IoT"] lists an item, and that item's
invention indeed has status "approved". -/
theorem status_filter_exact_amended_witness :
    combinedDemoItem ∈
        getInventionsLoop combinedFilterStore ⟨some Status.approved, some ["IoT"]⟩ ∧
      combinedDemoItem.invention.status = Status.approved :=
  ⟨by decide,
    status_filter_exact_amended.1 combinedFilterStore
      ⟨some Status.approved, some ["IoT"]⟩ Status.approved rfl
      combinedDemoItem (by decide)⟩

/-! ### Author presence claim -/

/-- Store with an orphaned invention (author record missing), for C7. -/
def orphanStore : Store :=
  { users := [],
    inventions := [mkInvention 1 [] Status.pending 3 "ghost"],
    comments := [], files := [], likes := [], nextCommentId := 1, nextLikeId := 1 }

/-- C7 counterexample: the grouped-join draft LEFT-JOINs the author, so on
a store holding an invention whose author record is missing the result has
an element whose author field is null. -/
theorem getInventionsJoin_null_author :
    (getInventionsJoin orphanStore noFilters).map (fun r => r.author) = [none] := by
  decide

/-- C7 amended: in the per-row-loop (inner-join) implementations every
listed element's author is the present user record found for the
invention's authorId; orphaned inventions are excluded. -/
theorem getInventionsLoop_author_present (s : Store) (f : Filters) :
    ∀ item ∈ getInventionsLoop s f,
      findUser s item.invention.authorId = some item.author := by
  intro item hitem
  simp only [getInventionsLoop, List.mem_filterMap, mem_sortDescBy] at hitem
  rcases hitem with ⟨⟨inv', u'⟩, hp, hsome⟩
  by_cases hpass : (statusPasses f inv' && tagsPass f inv') = true
  · rw [if_pos hpass] at hsome
    have hitem : (⟨inv', u', loopCounts s inv'.id⟩ : ListItem) = item :=
      Option.some.inj hsome
    have hmem := (mem_innerJoinAuthors s inv' u').mp hp
    rw [← hitem]
    exact hmem.2
  · rw [if_neg hpass] at hsome
    cases hsome

/-- The single item listed on `fundingDemoStore`. -/
def authorDemoItem : ListItem :=
  ⟨mkInvention 1 [] Status.pending 1 "u1", { id := "u1" }, loopCounts fundingDemoStore 1⟩

/-- Witness for C7's amended claim: the one listed item of the funding
demo store carries exactly the present author row of its invention. -/
theorem getInventionsLoop_author_present_witness :
    authorDemoItem ∈ getInventionsLoop fundingDemoStore noFilters ∧
      findUser fundingDemoStore authorDemoItem.invention.authorId
        = some authorDemoItem.author :=
  ⟨by decide,
    getInventionsLoop_author_present fundingDemoStore noFilters authorDemoItem (by decide)⟩

end InventionTracker

